import Mathlib

/-!
Shallow embedding of `controller/vault/azure_keyvault_service.go`
(azure-key-vault-to-kubernetes).

The Go file dispatches on a vault object type, fetches bundles from the
Azure Key Vault client, and normalizes certificate material (PEM or
PKCS#12) into a `map[string][]byte` with the two fixed Kubernetes TLS
keys.

Modelling conventions:
- Go byte strings (`string` / `[]byte`) carrying possibly-PEM content are
  `Bytes := List PemAtom`: a free monoid of plain characters and opaque
  PEM blocks.  This models the external `encoding/pem` library at the
  contract level: `pem.Decode` returns the first block and the remainder,
  `pem.EncodeToMemory` of a non-nil block is its canonical one-block text,
  and `pem.EncodeToMemory` of a nil `*pem.Block` dereferences nil.
- Go nil-pointer dereferences and slice-index overruns are `GoResult.panicked`.
- Machine bytes are `Nat` (all arithmetic stays below 256 by construction;
  `% 256` is written where the source truncates to a byte).
- The external `pkcs12.ToPEM` (golang.org/x/crypto) is a parameter
  `toPEM : List Nat → Except String (List PemBlock)`.
- The Azure Key Vault SDK client is a record of response functions; the
  embedded operations additionally return the list of client calls they
  issued, in order, so that call sequencing is provable.
-/

/-- Outcome of a Go computation: normal value, returned `error`, or a
runtime panic (nil-pointer dereference / index out of range). -/
inductive GoResult (α : Type) where
  | ok (a : α)
  | error (msg : String)
  | panicked (msg : String)
deriving DecidableEq, Repr

/-- A PEM block (`pem.Block`): type line, headers, DER payload bytes. -/
structure PemBlock where
  type : String
  headers : List (String × String)
  bytes : List Nat
deriving DecidableEq, Repr

/-- One atom of a Go byte string: either a plain character or an opaque,
canonically-encoded PEM block. -/
inductive PemAtom where
  | junk (c : Char)
  | block (b : PemBlock)
deriving DecidableEq, Repr

/-- A Go byte string, as consumed/produced by the certificate decoder. -/
abbrev Bytes : Type := List PemAtom

/-- A plain character string viewed as a `Bytes` value (no PEM blocks). -/
def strBytes (s : String) : Bytes := s.data.map PemAtom.junk

/-- Model of Go `map[string][]byte`: an association list where `insert`
updates in place when the key is present and appends otherwise (the
observable semantics of Go map assignment). -/
abbrev GoMap : Type := List (String × Bytes)

def GoMap.empty : GoMap := []

def GoMap.insert : GoMap → String → Bytes → GoMap
  | [], k, v => [(k, v)]
  | (k', v') :: rest, k, v =>
    if k' = k then (k, v) :: rest else (k', v') :: GoMap.insert rest k v

def GoMap.lookup : GoMap → String → Option Bytes
  | [], _ => none
  | (k', v') :: rest, k => if k' = k then some v' else GoMap.lookup rest k

def GoMap.keys (m : GoMap) : List String := m.map Prod.fst

/-- Model of `pem.Decode`: return the first PEM block of the input and the
remainder after it; when no block exists, return `none` together with the
whole input (as the Go function does). -/
def pemDecode : Bytes → Option PemBlock × Bytes
  | [] => (none, [])
  | PemAtom.block b :: rest => (some b, rest)
  | PemAtom.junk c :: rest =>
    if (pemDecode rest).1 = none then (none, PemAtom.junk c :: rest) else pemDecode rest

/-- Model of `pem.EncodeToMemory` applied to a `*pem.Block`: a nil pointer
is dereferenced (Go panics when ranging over `b.Headers`); a non-nil block
is rendered as its canonical one-block text. -/
def pemEncodeToMemory : Option PemBlock → GoResult Bytes
  | none => GoResult.panicked "invalid memory address or nil pointer dereference"
  | some b => GoResult.ok [PemAtom.block b]

/-- `corev1.TLSCertKey`. -/
def TLSCertKey : String := "tls.crt"

/-- `corev1.TLSPrivateKeyKey`. -/
def TLSPrivateKeyKey : String := "tls.key"

/-- Embedding of `extractPemCertificate` (azure_keyvault_service.go:115-124):
decode the first block as the private key and the next block of the
remainder as the public certificate, then re-encode both into the map
under the fixed TLS keys.  Line 121 (`secretValue[corev1.TLSCertKey] =
pem.EncodeToMemory(publicDer)`) runs first, so a missing public block
panics there before the private block is encoded. -/
def extractPemCertificateM (pemCert : Bytes) : GoResult GoMap :=
  match pemEncodeToMemory (pemDecode (pemDecode pemCert).2).1 with
  | GoResult.panicked m => GoResult.panicked m
  | GoResult.error e => GoResult.error e
  | GoResult.ok pub =>
    match pemEncodeToMemory (pemDecode pemCert).1 with
    | GoResult.panicked m => GoResult.panicked m
    | GoResult.error e => GoResult.error e
    | GoResult.ok priv =>
      GoResult.ok (GoMap.insert (GoMap.insert GoMap.empty TLSCertKey pub) TLSPrivateKeyKey priv)

/-!
## Base64 (`encoding/base64`, `RawURLEncoding`)

`base64.RawURLEncoding.Decode(dst, src)` processes `src` in quanta of up
to four alphabet characters.  Each quantum is validated character by
character before anything is written; a quantum of `n` valid characters
then writes `n - 1` bytes into `dst`.  A quantum of exactly one character
is `CorruptInputError`; an alphabet-external character is
`CorruptInputError`; a write past the end of `dst` is a runtime panic
(`index out of range`).  The decoder below is parameterized by the
capacity of `dst` so that the caller's choice of buffer size is part of
the model.
-/

/-- 6-bit value of a character of the unpadded URL-safe base64 alphabet
`A-Za-z0-9-_`; `none` for every other character. -/
def b64UrlIndex (c : Char) : Option Nat :=
  if 'A' ≤ c ∧ c ≤ 'Z' then some (c.toNat - 65)
  else if 'a' ≤ c ∧ c ≤ 'z' then some (c.toNat - 97 + 26)
  else if '0' ≤ c ∧ c ≤ '9' then some (c.toNat - 48 + 52)
  else if c = '-' then some 62
  else if c = '_' then some 63
  else none

/-- The bytes one quantum of 6-bit values contributes (Go `decodeQuantum`:
a quantum of `n` characters yields `n - 1` bytes). -/
def quantumBytes : List Nat → List Nat
  | [v0, v1] => [(v0 * 4 + v1 / 16) % 256]
  | [v0, v1, v2] => [(v0 * 4 + v1 / 16) % 256, (v1 % 16 * 16 + v2 / 4) % 256]
  | [v0, v1, v2, v3] =>
    [(v0 * 4 + v1 / 16) % 256, (v1 % 16 * 16 + v2 / 4) % 256, (v2 % 4 * 64 + v3) % 256]
  | _ => []

/-- Outcome of `Encoding.Decode` against a destination of given capacity. -/
inductive B64Out where
  | panicked
  | corrupt
  | ok (dst : List Nat)
deriving DecidableEq, Repr

/-- Go's decode loop, one source character at a time.  `written` counts
bytes already written, `pending` holds the validated 6-bit values of the
current partial quantum.  A full quantum (or the final partial one) is
flushed only after all of its characters validated, exactly as in Go's
`decodeQuantum`: an invalid character is `CorruptInputError` before any
write of that quantum, a lone trailing character is `CorruptInputError`,
and a flush whose bytes exceed the remaining destination capacity is the
runtime panic of the out-of-range write into `dst`. -/
def b64Run (cap : Nat) : Nat → List Nat → List Char → B64Out
  | _, [], [] => B64Out.ok []
  | _, [_], [] => B64Out.corrupt
  | written, p0 :: p1 :: ps, [] =>
    if cap < written + (quantumBytes (p0 :: p1 :: ps)).length then B64Out.panicked
    else B64Out.ok (quantumBytes (p0 :: p1 :: ps))
  | written, pending, c :: cs =>
    match b64UrlIndex c with
    | none => B64Out.corrupt
    | some v =>
      if (pending ++ [v]).length = 4 then
        if cap < written + (quantumBytes (pending ++ [v])).length then B64Out.panicked
        else
          match b64Run cap (written + (quantumBytes (pending ++ [v])).length) [] cs with
          | B64Out.ok more => B64Out.ok (quantumBytes (pending ++ [v]) ++ more)
          | r => r
      else b64Run cap written (pending ++ [v]) cs

/-- `base64.RawURLEncoding.Decode(dst, src)` with `len(dst) = cap`. -/
def base64RawURLDecode (cap : Nat) (src : List Char) : B64Out :=
  b64Run cap 0 [] src

/-!
## Character rendering of byte strings

`extractPfxCertificate` receives the secret value as a `string` and feeds
its characters to the base64 decoder, so the `Bytes` abstraction needs a
character rendering.  A `junk` atom is its character; a `block` atom
renders as the canonical `encoding/pem` text (`-----BEGIN`/`-----END`
lines, `k: v` header lines, standard padded base64 body wrapped at 64
columns).  Nothing in the claims exercises the block rendering; it exists
so the embedding is total on all byte strings.
-/

def b64StdChars : List Char :=
  "ABCDEFGHIJKLMNOPQRSTUVWXYZabcdefghijklmnopqrstuvwxyz0123456789+/".data

def b64Char (n : Nat) : Char := b64StdChars.getD n 'A'

/-- Standard padded base64 encoding of a byte list. -/
def b64StdEncode : List Nat → List Char
  | [] => []
  | [b0] => [b64Char (b0 / 4), b64Char (b0 % 4 * 16), '=', '=']
  | [b0, b1] => [b64Char (b0 / 4), b64Char (b0 % 4 * 16 + b1 / 16), b64Char (b1 % 16 * 4), '=']
  | b0 :: b1 :: b2 :: rest =>
    b64Char (b0 / 4) :: b64Char (b0 % 4 * 16 + b1 / 16) ::
      b64Char (b1 % 16 * 4 + b2 / 64) :: b64Char (b2 % 64) :: b64StdEncode rest

/-- Break a base64 body into newline-terminated lines of 64 characters. -/
def wrap64 (l : List Char) : List Char :=
  if l.length = 0 then []
  else if l.length ≤ 64 then l ++ ['\n']
  else List.take 64 l ++ '\n' :: wrap64 (List.drop 64 l)
termination_by l.length
decreasing_by simp [List.length_drop]; omega

/-- Canonical `encoding/pem` text of one block. -/
def pemBlockChars (b : PemBlock) : List Char :=
  ("-----BEGIN " ++ b.type ++ "-----\n").data
  ++ List.flatten (b.headers.map (fun p => (p.1 ++ ": " ++ p.2 ++ "\n").data))
  ++ (if b.headers.isEmpty then [] else ['\n'])
  ++ wrap64 (b64StdEncode b.bytes)
  ++ ("-----END " ++ b.type ++ "-----\n").data

def PemAtom.chars : PemAtom → List Char
  | PemAtom.junk c => [c]
  | PemAtom.block b => pemBlockChars b

/-- The character content of a byte string. -/
def bytesChars (t : Bytes) : List Char := List.flatten (t.map PemAtom.chars)

/-!
## The PKCS#12 path (`extractPfxCertificate`, lines 126-146)
-/

/-- `pem.EncodeToMemory` on one of the non-nil blocks produced by
`pkcs12.ToPEM` (the merge loop of lines 140-143). -/
def pemEncodeBlockAtoms (b : PemBlock) : Bytes := [PemAtom.block b]

/-- Embedding of `extractPfxCertificate` (lines 126-146).  The source
allocates `pfxRaw := make([]byte, 0)` and decodes into it, so the
destination capacity is literally `0`; the byte count returned by
`Decode` is discarded (`_, err :=`) and the unchanged zero-length
`pfxRaw` — `List.replicate 0 0` — is what reaches `pkcs12.ToPEM`.
`toPEM` is the external `pkcs12.ToPEM` with the empty password. -/
def extractPfxCertificateM (toPEM : List Nat → Except String (List PemBlock))
    (pfx : List Char) : GoResult GoMap :=
  match base64RawURLDecode 0 pfx with
  | B64Out.panicked => GoResult.panicked "runtime error: index out of range"
  | B64Out.corrupt =>
    GoResult.error "failed to decode base64 encoded pfx certificate, error: illegal base64 data"
  | B64Out.ok _ =>
    match toPEM (List.replicate 0 0) with
    | Except.error e =>
      GoResult.error ("failed to convert pfx certificate to pem, error: " ++ e)
    | Except.ok pemList =>
      extractPemCertificateM (List.flatten (pemList.map pemEncodeBlockAtoms))

/-!
## The resource and client model

The `AzureKeyVaultSecret` custom-resource type lives in
`pkg/apis/azurekeyvaultcontroller/v1alpha1` (not under `src/`); the
structures below carry exactly the fields the source file reads.
-/

/-- `AzureKeyVaultObjectType` is a string type; the four constants. -/
def AzureKeyVaultObjectTypeSecret : String := "secret"

def AzureKeyVaultObjectTypeCertificate : String := "certificate"

def AzureKeyVaultObjectTypeKey : String := "key"

def AzureKeyVaultObjectTypeStorage : String := "storage"

def AzureKeyVaultCertificateTypePem : String := "application/x-pem-file"

def AzureKeyVaultCertificateTypePfx : String := "application/x-pkcs12"

/-- Modelled from the spec: `VaultObjectRef` — the `Spec.Vault.Object`
fields the source reads (`Type`, `Name`, `Version`; empty version means
latest). -/
structure VaultObject where
  type : String
  name : String
  version : String
deriving DecidableEq, Repr

/-- Modelled from the spec: the vault part of the resource spec — the
vault's `Name` (DNS label of the vault URL) and the requested object. -/
structure VaultRef where
  name : String
  object : VaultObject
deriving DecidableEq, Repr

/-- Modelled from the spec: one `OutputKeySpec` entry; the source reads
only the destination name (`key.DstName`). -/
structure OutputKey where
  dstName : String
deriving DecidableEq, Repr

/-- Modelled from the spec: the parts of the `AzureKeyVaultSecret`
resource the source reads: `Spec.Vault` and `Spec.OutputSecret.Keys`. -/
structure AzureKeyVaultSecret where
  vault : VaultRef
  outputKeys : List OutputKey
deriving DecidableEq, Repr

/-- `keyvault.SecretBundle`: `Value *string`, `ContentType *string`. -/
structure SecretBundle where
  value : Option Bytes
  contentType : Option String

/-- `keyvault.CertificateBundle`, flattened to the single field the source
dereferences: `*certBundle.Policy.KeyProperties.Exportable` (a nil
anywhere along that pointer chain panics, which the `none` case models). -/
structure CertificateBundle where
  exportable : Option Bool

/-- The Azure Key Vault SDK client, as a record of response functions of
`(baseURL, name, version)`. -/
structure VaultClient where
  getCertificateResp : String → String → String → GoResult CertificateBundle
  getSecretResp : String → String → String → GoResult SecretBundle

/-- One call issued to the vault client, with the arguments passed. -/
inductive ClientCall where
  | getCertificateCall (baseURL name version : String)
  | getSecretCall (baseURL name version : String)
deriving DecidableEq, Repr

/-- `fmt.Sprintf("https://%s.vault.azure.net", secret.Spec.Vault.Name)`. -/
def baseURLOf (s : AzureKeyVaultSecret) : String :=
  "https://" ++ s.vault.name ++ ".vault.azure.net"

/-- The loop of lines 72-74: every output key receives the fetched value. -/
def outMap (ks : List OutputKey) (v : Bytes) : GoMap :=
  List.foldl (fun m k => GoMap.insert m k.dstName v) GoMap.empty ks

/-- Embedding of `getSecret` (lines 56-77): obtain a client (`authErr`
models `getClient` failing, in which case no vault call is made), call
`vaultClient.GetSecret(ctx, baseURL, name, "")` — note the hard-coded
empty version — then copy `[]byte(*secretBundle.Value)` under every
output key.  The second component is the list of client calls issued. -/
def getSecretGo (authErr : Option String) (c : VaultClient) (s : AzureKeyVaultSecret) :
    GoResult GoMap × List ClientCall :=
  match authErr with
  | some e => (GoResult.error e, [])
  | none =>
    match c.getSecretResp (baseURLOf s) s.vault.object.name "" with
    | GoResult.error e =>
      (GoResult.error e, [ClientCall.getSecretCall (baseURLOf s) s.vault.object.name ""])
    | GoResult.panicked m =>
      (GoResult.panicked m, [ClientCall.getSecretCall (baseURLOf s) s.vault.object.name ""])
    | GoResult.ok bundle =>
      match bundle.value with
      | none =>
        (GoResult.panicked "invalid memory address or nil pointer dereference",
         [ClientCall.getSecretCall (baseURLOf s) s.vault.object.name ""])
      | some v =>
        (GoResult.ok (outMap s.outputKeys v),
         [ClientCall.getSecretCall (baseURLOf s) s.vault.object.name ""])

/-- Embedding of `getCertificate` (lines 80-113): fetch the certificate
bundle with `(name, version)`, check the exportable flag, fetch the
companion secret with `(name, version)`, then dispatch on
`*secretBundle.ContentType` (dereferenced before `Value`; an absent
content type panics at line 105). -/
def getCertificateGo (toPEM : List Nat → Except String (List PemBlock))
    (authErr : Option String) (c : VaultClient) (s : AzureKeyVaultSecret) :
    GoResult GoMap × List ClientCall :=
  match authErr with
  | some e => (GoResult.error e, [])
  | none =>
    match c.getCertificateResp (baseURLOf s) s.vault.object.name s.vault.object.version with
    | GoResult.error e =>
      (GoResult.error ("failed to get certificate from azure key vault, error: " ++ e),
       [ClientCall.getCertificateCall (baseURLOf s) s.vault.object.name s.vault.object.version])
    | GoResult.panicked m =>
      (GoResult.panicked m,
       [ClientCall.getCertificateCall (baseURLOf s) s.vault.object.name s.vault.object.version])
    | GoResult.ok certBundle =>
      match certBundle.exportable with
      | none =>
        (GoResult.panicked "invalid memory address or nil pointer dereference",
         [ClientCall.getCertificateCall (baseURLOf s) s.vault.object.name s.vault.object.version])
      | some exportable =>
        if !exportable then
          (GoResult.error "unable to get certificate since it's not exportable",
           [ClientCall.getCertificateCall (baseURLOf s) s.vault.object.name s.vault.object.version])
        else
          match c.getSecretResp (baseURLOf s) s.vault.object.name s.vault.object.version with
          | GoResult.error e =>
            (GoResult.error ("failed to get secret from azure key vault, error: " ++ e),
             [ClientCall.getCertificateCall (baseURLOf s) s.vault.object.name s.vault.object.version,
              ClientCall.getSecretCall (baseURLOf s) s.vault.object.name s.vault.object.version])
          | GoResult.panicked m =>
            (GoResult.panicked m,
             [ClientCall.getCertificateCall (baseURLOf s) s.vault.object.name s.vault.object.version,
              ClientCall.getSecretCall (baseURLOf s) s.vault.object.name s.vault.object.version])
          | GoResult.ok secretBundle =>
            match secretBundle.contentType with
            | none =>
              (GoResult.panicked "invalid memory address or nil pointer dereference",
               [ClientCall.getCertificateCall (baseURLOf s) s.vault.object.name s.vault.object.version,
                ClientCall.getSecretCall (baseURLOf s) s.vault.object.name s.vault.object.version])
            | some ct =>
              ((if ct = AzureKeyVaultCertificateTypePem then
                  match secretBundle.value with
                  | none => GoResult.panicked "invalid memory address or nil pointer dereference"
                  | some v => extractPemCertificateM v
                else if ct = AzureKeyVaultCertificateTypePfx then
                  match secretBundle.value with
                  | none => GoResult.panicked "invalid memory address or nil pointer dereference"
                  | some v => extractPfxCertificateM toPEM (bytesChars v)
                else
                  GoResult.error
                    ("azure key vault secret with content-type '" ++ ct ++ "' not supported")),
               [ClientCall.getCertificateCall (baseURLOf s) s.vault.object.name s.vault.object.version,
                ClientCall.getSecretCall (baseURLOf s) s.vault.object.name s.vault.object.version])

/-- Embedding of the exported `GetSecret` method (lines 47-54): dispatch on
the object type; only `certificate` takes the certificate path. -/
def GetSecretGo (toPEM : List Nat → Except String (List PemBlock))
    (authErr : Option String) (c : VaultClient) (s : AzureKeyVaultSecret) :
    GoResult GoMap × List ClientCall :=
  if s.vault.object.type = AzureKeyVaultObjectTypeCertificate then
    getCertificateGo toPEM authErr c s
  else
    getSecretGo authErr c s

/-!
## Lemmas about the map and PEM models
-/

theorem GoMap.lookup_insert (m : GoMap) (k q : String) (v : Bytes) :
    GoMap.lookup (GoMap.insert m k v) q = if k = q then some v else GoMap.lookup m q := by
  induction m with
  | nil => simp [GoMap.insert, GoMap.lookup]
  | cons p rest ih =>
    obtain ⟨k', v'⟩ := p
    simp only [GoMap.insert]
    by_cases hk : k' = k
    · subst hk
      rw [if_pos rfl]
      simp only [GoMap.lookup]
      by_cases hq : k' = q <;> simp [hq]
    · rw [if_neg hk]
      simp only [GoMap.lookup]
      by_cases hq : k' = q
      · subst hq
        have hkq : ¬ k = k' := fun h => hk h.symm
        simp [hkq]
      · simp [hq, ih]

theorem GoMap.keys_insert (m : GoMap) (k : String) (v : Bytes) :
    GoMap.keys (GoMap.insert m k v) =
      if k ∈ GoMap.keys m then GoMap.keys m else GoMap.keys m ++ [k] := by
  induction m with
  | nil => simp [GoMap.insert, GoMap.keys]
  | cons p rest ih =>
    obtain ⟨k', v'⟩ := p
    simp only [GoMap.insert]
    by_cases hk : k' = k
    · subst hk
      rw [if_pos rfl]
      simp [GoMap.keys]
    · rw [if_neg hk]
      simp only [GoMap.keys, List.map_cons] at ih ⊢
      rw [ih]
      have hke : ¬ k = k' := fun h => hk h.symm
      by_cases hm : k ∈ List.map Prod.fst rest
      · simp [hm, hke]
      · simp [hm, hke]

theorem GoMap.mem_keys_insert (m : GoMap) (k : String) (v : Bytes) (q : String) :
    q ∈ GoMap.keys (GoMap.insert m k v) ↔ q ∈ GoMap.keys m ∨ q = k := by
  rw [GoMap.keys_insert]
  by_cases h : k ∈ GoMap.keys m
  · rw [if_pos h]
    exact ⟨Or.inl, fun h' => h'.elim id (fun e => e ▸ h)⟩
  · rw [if_neg h]
    simp

theorem GoMap.nodup_keys_insert (m : GoMap) (k : String) (v : Bytes)
    (h : (GoMap.keys m).Nodup) : (GoMap.keys (GoMap.insert m k v)).Nodup := by
  rw [GoMap.keys_insert]
  by_cases hk : k ∈ GoMap.keys m
  · rwa [if_pos hk]
  · rw [if_neg hk]
    simp [List.nodup_append, h, hk]

theorem outMap_lookup_aux (ks : List OutputKey) (v : Bytes) :
    ∀ (m0 : GoMap) (q : String),
      GoMap.lookup (List.foldl (fun m k => GoMap.insert m k.dstName v) m0 ks) q =
        if q ∈ ks.map OutputKey.dstName then some v else GoMap.lookup m0 q := by
  induction ks with
  | nil => intro m0 q; simp
  | cons k ks ih =>
    intro m0 q
    simp only [List.foldl_cons, List.map_cons, List.mem_cons]
    rw [ih, GoMap.lookup_insert]
    by_cases h1 : q ∈ List.map OutputKey.dstName ks
    · simp [h1]
    · by_cases h2 : k.dstName = q
      · simp [h1, h2]
      · have h3 : ¬ q = k.dstName := fun h => h2 h.symm
        simp [h1, h2, h3]

theorem outMap_mem_keys_aux (ks : List OutputKey) (v : Bytes) :
    ∀ (m0 : GoMap) (q : String),
      q ∈ GoMap.keys (List.foldl (fun m k => GoMap.insert m k.dstName v) m0 ks) ↔
        q ∈ GoMap.keys m0 ∨ q ∈ ks.map OutputKey.dstName := by
  induction ks with
  | nil => intro m0 q; simp
  | cons k ks ih =>
    intro m0 q
    simp only [List.foldl_cons, List.map_cons, List.mem_cons]
    rw [ih, GoMap.mem_keys_insert]
    tauto

theorem outMap_nodup_keys_aux (ks : List OutputKey) (v : Bytes) :
    ∀ (m0 : GoMap), (GoMap.keys m0).Nodup →
      (GoMap.keys (List.foldl (fun m k => GoMap.insert m k.dstName v) m0 ks)).Nodup := by
  induction ks with
  | nil => intro m0 h; exact h
  | cons k ks ih =>
    intro m0 h
    exact ih _ (GoMap.nodup_keys_insert m0 k.dstName v h)

/-- Characters-only prefixes for building PEM inputs. -/
def junksOf (l : List Char) : Bytes := l.map PemAtom.junk

theorem pemDecode_junks_block (pre : List Char) (b : PemBlock) (r : Bytes) :
    pemDecode (junksOf pre ++ PemAtom.block b :: r) = (some b, r) := by
  induction pre with
  | nil => rfl
  | cons c cs ih =>
    simp only [junksOf, List.map_cons, List.cons_append, pemDecode, List.append_eq] at ih ⊢
    rw [ih]
    simp

theorem pemDecode_none_rest (t : Bytes) (h : (pemDecode t).1 = none) : (pemDecode t).2 = t := by
  induction t with
  | nil => rfl
  | cons a rest ih =>
    cases a with
    | block b => simp [pemDecode] at h
    | junk c =>
      simp only [pemDecode] at h ⊢
      by_cases hn : (pemDecode rest).1 = none
      · simp [hn]
      · rw [if_neg hn] at h
        exact absurd h hn

/-- With a zero-capacity destination, once two valid characters are
pending every continuation of valid characters ends in the out-of-range
panic: any flush (mid-stream or final) has at least one byte to write. -/
theorem b64Run_zero_cap (t : List Char) :
    ∀ pending : List Nat, (∀ c ∈ t, (b64UrlIndex c).isSome = true) →
      2 ≤ pending.length → pending.length ≤ 3 →
      b64Run 0 0 pending t = B64Out.panicked := by
  induction t with
  | nil =>
    intro pending _ h2 h3
    match pending, h2, h3 with
    | [a, b], _, _ => rfl
    | [a, b, c], _, _ => rfl
  | cons c cs ih =>
    intro pending hv h2 h3
    have hc : (b64UrlIndex c).isSome = true := hv c (by simp)
    obtain ⟨v, hvc⟩ := Option.isSome_iff_exists.mp hc
    have hcs : ∀ x ∈ cs, (b64UrlIndex x).isSome = true := fun x hx => hv x (by simp [hx])
    match pending, h2, h3 with
    | [a, b], _, _ =>
      simp only [b64Run, hvc, List.cons_append, List.nil_append, List.length_cons,
        List.length_nil]
      exact ih [a, b, v] hcs (by simp) (by simp)
    | [a, b, d], _, _ =>
      simp only [b64Run, hvc]
      rfl

/-!
## Claim theorems: certificate decoder
-/

/-- C1.  The claim says `extractPfxCertificate` decodes into a destination
buffer sized for the full decoded length, never truncates, and returns a
decode error when decoding fails or yields zero bytes.  The source
instead decodes into `make([]byte, 0)`: on the valid four-character
base64 input `"AAAA"` (three decoded bytes) the write into the
zero-length buffer is an out-of-range panic, for every behaviour of the
downstream PKCS#12 parser; only an alphabet-invalid input such as `"!!"`
reaches the decode-error return. -/
theorem c1_zero_length_buffer :
    (∀ toPEM, extractPfxCertificateM toPEM ['A', 'A', 'A', 'A'] =
      GoResult.panicked "runtime error: index out of range") ∧
    (∀ toPEM, extractPfxCertificateM toPEM ['!', '!'] =
      GoResult.error
        "failed to decode base64 encoded pfx certificate, error: illegal base64 data") :=
  ⟨fun _ => rfl, fun _ => rfl⟩

/-- C2.  The claim says a failed `pem.Decode` leaves the corresponding
output key present with zero-length content.  In the source, a `nil`
block reaching `pem.EncodeToMemory` is a nil-pointer dereference: for
every input on which the first or the second `pem.Decode` returns no
block, `extractPemCertificate` panics instead of returning a mapping. -/
theorem c2_missing_block_panics (t : Bytes)
    (h : (pemDecode t).1 = none ∨ (pemDecode (pemDecode t).2).1 = none) :
    extractPemCertificateM t =
      GoResult.panicked "invalid memory address or nil pointer dereference" := by
  have h2 : (pemDecode (pemDecode t).2).1 = none := by
    rcases h with h | h
    · rw [pemDecode_none_rest t h]
      exact h
    · exact h
  unfold extractPemCertificateM
  rw [h2]
  rfl

/-- Closed instance of `c2_missing_block_panics` at an input with no
decodable PEM block. -/
theorem c2_missing_block_panics_witness :
    extractPemCertificateM (strBytes "no pem block here") =
      GoResult.panicked "invalid memory address or nil pointer dereference" :=
  c2_missing_block_panics (strBytes "no pem block here") (Or.inl (by rfl))

/-- C5.  On any input whose first decodable block is `b1` and whose next
decodable block is `b2`, `extractPemCertificate` returns exactly the
two-key mapping: `tls.crt` holds the re-encoding of `b2` (the public
certificate), `tls.key` holds the re-encoding of `b1` (the private key),
and everything after the second block — including further certificate
blocks — is dropped. -/
theorem c5_first_two_blocks (pre mid : List Char) (b1 b2 : PemBlock) (rest : Bytes) :
    extractPemCertificateM
        (junksOf pre ++ PemAtom.block b1 :: (junksOf mid ++ PemAtom.block b2 :: rest)) =
      GoResult.ok
        [(TLSCertKey, [PemAtom.block b2]), (TLSPrivateKeyKey, [PemAtom.block b1])] := by
  unfold extractPemCertificateM
  rw [pemDecode_junks_block pre b1 (junksOf mid ++ PemAtom.block b2 :: rest)]
  simp only
  rw [pemDecode_junks_block mid b2 rest]
  rfl

/-- C6.  The claim says that on a base64-decodable, password-less archive
that parses successfully, the PKCS#12 path returns the result of the PEM
path applied to the concatenated PEM encodings of the archive entries.
Because the base64 decode targets the zero-length buffer, any input of
two or more alphabet characters panics before `pkcs12.ToPEM` is ever
consulted — for every possible parser behaviour `toPEM`, including ones
that would parse the decoded bytes successfully — so the claimed
equivalence is never reached. -/
theorem c6_never_reaches_pem_path (toPEM : List Nat → Except String (List PemBlock))
    (s : List Char) (h2 : 2 ≤ s.length) (hv : ∀ c ∈ s, (b64UrlIndex c).isSome = true) :
    extractPfxCertificateM toPEM s =
      GoResult.panicked "runtime error: index out of range" := by
  match s, h2 with
  | a :: b :: t, _ =>
    have ha := Option.isSome_iff_exists.mp (hv a (by simp))
    have hb := Option.isSome_iff_exists.mp (hv b (by simp))
    obtain ⟨va, hva⟩ := ha
    obtain ⟨vb, hvb⟩ := hb
    have ht : ∀ c ∈ t, (b64UrlIndex c).isSome = true := fun c hc => hv c (by simp [hc])
    have hrun : base64RawURLDecode 0 (a :: b :: t) = B64Out.panicked := by
      unfold base64RawURLDecode
      simp only [b64Run, hva, hvb, List.nil_append, List.cons_append, List.length_cons,
        List.length_nil]
      exact b64Run_zero_cap t [va, vb] ht (by simp) (by simp)
    unfold extractPfxCertificateM
    rw [hrun]

/-- Closed instance of `c6_never_reaches_pem_path`: the first characters
of a base64-encoded PKCS#12 archive (`"MIIB"`), under a parser that would
succeed on any blob. -/
theorem c6_never_reaches_pem_path_witness :
    extractPfxCertificateM
        (fun _ => Except.ok [{ type := "PRIVATE KEY", headers := [], bytes := [1] },
                             { type := "CERTIFICATE", headers := [], bytes := [2] }])
        ['M', 'I', 'I', 'B'] =
      GoResult.panicked "runtime error: index out of range" :=
  c6_never_reaches_pem_path _ ['M', 'I', 'I', 'B'] (by decide) (by decide)

/-!
## Claim theorems: object retriever
-/

/-- C3.  When the fetched certificate policy has `exportable == false`,
`getCertificate` returns the not-exportable error and the complete call
trace is the single certificate-metadata call: the secret-value fetch is
never issued. -/
theorem c3_not_exportable_short_circuits (toPEM : List Nat → Except String (List PemBlock))
    (c : VaultClient) (s : AzureKeyVaultSecret) (cb : CertificateBundle)
    (h1 : c.getCertificateResp (baseURLOf s) s.vault.object.name s.vault.object.version =
      GoResult.ok cb)
    (h2 : cb.exportable = some false) :
    getCertificateGo toPEM none c s =
      (GoResult.error "unable to get certificate since it's not exportable",
       [ClientCall.getCertificateCall (baseURLOf s) s.vault.object.name
          s.vault.object.version]) := by
  unfold getCertificateGo
  rw [h1]
  simp [h2]

def c3Client : VaultClient :=
  { getCertificateResp := fun _ _ _ => GoResult.ok { exportable := some false }
    getSecretResp := fun _ _ _ => GoResult.error "secret fetch must never happen" }

def plainSecretRes : AzureKeyVaultSecret :=
  { vault := { name := "myvault", object := { type := "secret", name := "mysecret", version := "" } }
    outputKeys := [{ dstName := "password" }] }

def certSecretRes : AzureKeyVaultSecret :=
  { vault := { name := "myvault",
               object := { type := "certificate", name := "mycert", version := "v7" } }
    outputKeys := [] }

def toPEMUnused : List Nat → Except String (List PemBlock) := fun _ => Except.error "unused"

/-- Closed instance of `c3_not_exportable_short_circuits`. -/
theorem c3_not_exportable_short_circuits_witness :
    getCertificateGo toPEMUnused none c3Client certSecretRes =
      (GoResult.error "unable to get certificate since it's not exportable",
       [ClientCall.getCertificateCall "https://myvault.vault.azure.net" "mycert" "v7"]) :=
  c3_not_exportable_short_circuits toPEMUnused c3Client certSecretRes _ rfl rfl

/-- A client whose plain-secret responses differ between the empty
(latest) version and version `"v1"`. -/
def c4Client : VaultClient :=
  { getCertificateResp := fun _ _ _ => GoResult.error "unused"
    getSecretResp := fun _ _ version =>
      if version = "" then
        GoResult.ok { value := some (strBytes "latest-value"), contentType := none }
      else
        GoResult.ok { value := some (strBytes "v1-value"), contentType := none } }

def c4Secret : AzureKeyVaultSecret :=
  { vault := { name := "vaultx", object := { type := "secret", name := "db-pass", version := "v1" } }
    outputKeys := [{ dstName := "k" }] }

/-- C4, counterexample.  The requested object carries version `"v1"`, but
the plain-secret path issues its client call with the empty version and
returns the latest value; no call with version `"v1"` is ever made. -/
theorem c4_version_ignored_counterexample :
    (getSecretGo none c4Client c4Secret).2 =
      [ClientCall.getSecretCall "https://vaultx.vault.azure.net" "db-pass" ""] ∧
    ClientCall.getSecretCall "https://vaultx.vault.azure.net" "db-pass" "v1" ∉
      (getSecretGo none c4Client c4Secret).2 ∧
    (getSecretGo none c4Client c4Secret).1 = GoResult.ok [("k", strBytes "latest-value")] :=
  ⟨rfl, by decide, rfl⟩

/-- Replace the requested object's version. -/
def withVersion (s : AzureKeyVaultSecret) (w : String) : AzureKeyVaultSecret :=
  { s with vault := { s.vault with object := { s.vault.object with version := w } } }

/-- C4, amended.  The plain-secret path always calls the client with the
object's name and the hard-coded empty version (latest); the requested
version is ignored entirely; a failed fetch propagates as the error. -/
theorem c4_plain_path_ignores_version (c : VaultClient) (s : AzureKeyVaultSecret) :
    (getSecretGo none c s).2 =
      [ClientCall.getSecretCall (baseURLOf s) s.vault.object.name ""] ∧
    (∀ w, getSecretGo none c (withVersion s w) = getSecretGo none c s) ∧
    (∀ e, c.getSecretResp (baseURLOf s) s.vault.object.name "" = GoResult.error e →
      (getSecretGo none c s).1 = GoResult.error e) := by
  refine ⟨?_, fun w => rfl, ?_⟩
  · unfold getSecretGo
    cases hr : c.getSecretResp (baseURLOf s) s.vault.object.name "" with
    | ok bundle => cases hb : bundle.value <;> simp [hb]
    | error e => simp
    | panicked m => simp
  · intro e he
    unfold getSecretGo
    rw [he]

def c4ErrClient : VaultClient :=
  { getCertificateResp := fun _ _ _ => GoResult.error "unused"
    getSecretResp := fun _ _ _ => GoResult.error "vault unreachable" }

/-- Closed instance of `c4_plain_path_ignores_version`. -/
theorem c4_plain_path_ignores_version_witness :
    (getSecretGo none c4ErrClient c4Secret).1 = GoResult.error "vault unreachable" :=
  (c4_plain_path_ignores_version c4ErrClient c4Secret).2.2 "vault unreachable" rfl

def c7Client : VaultClient :=
  { getCertificateResp := fun _ _ _ => GoResult.ok { exportable := some true }
    getSecretResp := fun _ _ _ =>
      GoResult.ok { value := some (strBytes "material"), contentType := none } }

/-- C7, counterexample.  With an exportable certificate whose companion
secret carries no content type at all, `getCertificate` does not return
an unsupported-content-type error: dereferencing the nil
`secretBundle.ContentType` at the `switch` is a runtime panic. -/
theorem c7_absent_content_type_counterexample :
    (getCertificateGo toPEMUnused none c7Client certSecretRes).1 =
      GoResult.panicked "invalid memory address or nil pointer dereference" := rfl

/-- C7, amended.  For a certificate retrieval whose fetched secret has a
present content type that is neither PEM nor PKCS#12, `getCertificate`
fails with the unsupported-content-type error, whose message embeds the
offending content-type string; an absent content type instead panics on
the nil dereference. -/
theorem c7_unsupported_present_content_type
    (toPEM : List Nat → Except String (List PemBlock)) (c : VaultClient)
    (s : AzureKeyVaultSecret) (cb : CertificateBundle) (sb : SecretBundle) (ct : String)
    (h1 : c.getCertificateResp (baseURLOf s) s.vault.object.name s.vault.object.version =
      GoResult.ok cb)
    (h2 : cb.exportable = some true)
    (h3 : c.getSecretResp (baseURLOf s) s.vault.object.name s.vault.object.version =
      GoResult.ok sb)
    (h4 : sb.contentType = some ct)
    (h5 : ct ≠ AzureKeyVaultCertificateTypePem)
    (h6 : ct ≠ AzureKeyVaultCertificateTypePfx) :
    (getCertificateGo toPEM none c s).1 =
      GoResult.error ("azure key vault secret with content-type '" ++ ct ++ "' not supported") := by
  unfold getCertificateGo
  rw [h1]
  simp only [h2, Bool.not_true, if_false, Bool.false_eq_true]
  rw [h3]
  simp [h4, h5, h6]

def c7AmClient : VaultClient :=
  { getCertificateResp := fun _ _ _ => GoResult.ok { exportable := some true }
    getSecretResp := fun _ _ _ =>
      GoResult.ok { value := some (strBytes "material"), contentType := some "text/plain" } }

/-- Closed instance of `c7_unsupported_present_content_type`. -/
theorem c7_unsupported_present_content_type_witness :
    (getCertificateGo toPEMUnused none c7AmClient certSecretRes).1 =
      GoResult.error "azure key vault secret with content-type 'text/plain' not supported" :=
  c7_unsupported_present_content_type toPEMUnused c7AmClient certSecretRes _ _ "text/plain"
    rfl rfl rfl rfl (by decide) (by decide)

/-- C8.  On a successful plain-secret fetch, the result is exactly the
map built by copying the fetched value under every destination name of
the output spec: each named key is present and holds the fetched value
verbatim, and an empty spec yields the empty mapping rather than an
error.  (The embedding is a pure function of its inputs, so calling it
twice with the same inputs is definitionally the same output.) -/
theorem c8_output_spec_copies_value (c : VaultClient) (s : AzureKeyVaultSecret)
    (sb : SecretBundle) (v : Bytes)
    (h1 : c.getSecretResp (baseURLOf s) s.vault.object.name "" = GoResult.ok sb)
    (h2 : sb.value = some v) :
    (getSecretGo none c s).1 = GoResult.ok (outMap s.outputKeys v) ∧
    (∀ k, k ∈ s.outputKeys → GoMap.lookup (outMap s.outputKeys v) k.dstName = some v) ∧
    (s.outputKeys = [] → outMap s.outputKeys v = GoMap.empty) := by
  refine ⟨?_, ?_, ?_⟩
  · unfold getSecretGo
    rw [h1]
    simp [h2]
  · intro k hk
    unfold outMap
    rw [outMap_lookup_aux]
    have : k.dstName ∈ s.outputKeys.map OutputKey.dstName := List.mem_map_of_mem _ hk
    rw [if_pos this]
  · intro h
    rw [h]
    rfl

def c8Client : VaultClient :=
  { getCertificateResp := fun _ _ _ => GoResult.error "unused"
    getSecretResp := fun _ _ _ =>
      GoResult.ok { value := some (strBytes "s3cr3t"), contentType := none } }

/-- Closed instance of `c8_output_spec_copies_value`. -/
theorem c8_output_spec_copies_value_witness :
    (getSecretGo none c8Client plainSecretRes).1 =
      GoResult.ok (outMap plainSecretRes.outputKeys (strBytes "s3cr3t")) :=
  (c8_output_spec_copies_value c8Client plainSecretRes _ _ rfl rfl).1

/-- C9.  For an object type other than `certificate`, the dispatcher
takes the plain-secret path, whose result depends only on the fetched
value — the content type `ct` is universally quantified and absent from
the conclusion, so it is never inspected — and every destination key
receives the raw undecoded value. -/
theorem c9_content_type_never_inspected (toPEM : List Nat → Except String (List PemBlock))
    (c : VaultClient) (s : AzureKeyVaultSecret) (v : Bytes) (ct : Option String)
    (hty : s.vault.object.type ≠ AzureKeyVaultObjectTypeCertificate)
    (h1 : c.getSecretResp (baseURLOf s) s.vault.object.name "" =
      GoResult.ok { value := some v, contentType := ct }) :
    (GetSecretGo toPEM none c s).1 = GoResult.ok (outMap s.outputKeys v) := by
  unfold GetSecretGo
  rw [if_neg hty]
  unfold getSecretGo
  rw [h1]

def c9Block : PemBlock := { type := "CERTIFICATE", headers := [], bytes := [1, 2, 3] }

def c9Client : VaultClient :=
  { getCertificateResp := fun _ _ _ => GoResult.error "unused"
    getSecretResp := fun _ _ _ =>
      GoResult.ok { value := some [PemAtom.block c9Block],
                    contentType := some AzureKeyVaultCertificateTypePem } }

def c9Secret : AzureKeyVaultSecret :=
  { vault := { name := "vaultz", object := { type := "key", name := "k1", version := "" } }
    outputKeys := [{ dstName := "out" }] }

/-- Closed instance of `c9_content_type_never_inspected`: the stored value
is itself a PEM certificate and the bundle advertises the PEM content
type, yet the non-certificate path returns it raw. -/
theorem c9_content_type_never_inspected_witness :
    (GetSecretGo toPEMUnused none c9Client c9Secret).1 =
      GoResult.ok (outMap c9Secret.outputKeys [PemAtom.block c9Block]) :=
  c9_content_type_never_inspected toPEMUnused c9Client c9Secret _ _ (by decide) rfl

/-- C10.  The map built from the output spec has no duplicate keys: its
key set is exactly the set of distinct destination names, and every
destination name (duplicated in the spec or not) looks up to the single
fetched value; duplicates are absorbed by map overwrite, not an error. -/
theorem c10_duplicate_dst_names (ks : List OutputKey) (v : Bytes) :
    (GoMap.keys (outMap ks v)).Nodup ∧
    (∀ q, q ∈ GoMap.keys (outMap ks v) ↔ q ∈ ks.map OutputKey.dstName) ∧
    (∀ q, q ∈ ks.map OutputKey.dstName → GoMap.lookup (outMap ks v) q = some v) := by
  refine ⟨?_, ?_, ?_⟩
  · exact outMap_nodup_keys_aux ks v GoMap.empty List.nodup_nil
  · intro q
    unfold outMap
    rw [outMap_mem_keys_aux]
    simp [GoMap.empty, GoMap.keys]
  · intro q hq
    unfold outMap
    rw [outMap_lookup_aux, if_pos hq]

/-- Closed instance of `c10_duplicate_dst_names` with the destination
name `"a"` listed twice. -/
theorem c10_duplicate_dst_names_witness :
    GoMap.lookup (outMap [{ dstName := "a" }, { dstName := "b" }, { dstName := "a" }]
      (strBytes "x")) "a" = some (strBytes "x") :=
  (c10_duplicate_dst_names [{ dstName := "a" }, { dstName := "b" }, { dstName := "a" }]
    (strBytes "x")).2.2 "a" (by decide)
